import Mathlib

/-!
Verification of the anonymous one-liner message API (Cloudflare Pages
Functions + D1).  The repository contains two handler variants:

* the full variant (`src/unnamed/part_000`, lines 1-201): GET returns the
  latest 10 messages; POST is rate limited per hashed client IP with a
  30 000 ms window backed by a `rate_limits` table, then parses the JSON
  body, normalizes and validates the text, and inserts a `messages` row;
* the simple variant (`src/functions/api/messages.js`): GET is the same,
  but POST has no rate limiting at all and uses a plain `trim` for
  normalization.

The definitions below are a shallow embedding of those handlers.  JS
strings are modelled as Lean strings (sequences of Unicode scalar
values); the JS `.length` (UTF-16 code units) is modelled by `utf16Len`.
Timestamps are integers (JS `Date.now()` values; subtraction may go
negative, as in JS number arithmetic).
-/

namespace Duanlian

/-- The set of characters matched by JavaScript `\s` (and removed by
`String.prototype.trim`): space, tab, LF, VT, FF, CR, NBSP, and the
Unicode space separators, line/paragraph separators and BOM. -/
def jsWs (c : Char) : Bool :=
  decide (c.toNat = 32 ∨ (9 ≤ c.toNat ∧ c.toNat ≤ 13) ∨ c.toNat = 160 ∨
    c.toNat = 0x1680 ∨ (0x2000 ≤ c.toNat ∧ c.toNat ≤ 0x200A) ∨
    c.toNat = 0x2028 ∨ c.toNat = 0x2029 ∨ c.toNat = 0x202F ∨
    c.toNat = 0x205F ∨ c.toNat = 0x3000 ∨ c.toNat = 0xFEFF)

/-- JavaScript `String.prototype.trim`: remove the longest whitespace
run from both ends of the character list. -/
def trimChars (l : List Char) : List Char :=
  ((l.dropWhile jsWs).reverse.dropWhile jsWs).reverse

/-- JavaScript `s.replace(/\s+/g, " ")`: every maximal run of
whitespace characters is replaced by a single ASCII space.  The
recursion keeps the last character of each run (turned into a space)
and drops the characters of a run that are followed by more
whitespace. -/
def collapseWs : List Char → List Char
  | [] => []
  | [c] => if jsWs c then [' '] else [c]
  | c :: d :: rest =>
    if jsWs c && jsWs d then collapseWs (d :: rest)
    else (if jsWs c then ' ' else c) :: collapseWs (d :: rest)

/-- `normalizeText` on a plain string (source, `part_000` lines 72-77):
`String(s).trim().replace(/\s+/g, " ")`. -/
def normStr (s : String) : String :=
  ⟨collapseWs (trimChars s.data)⟩

/-- `normalizeText` of the full variant: the argument is `body?.text`,
which may be `undefined`; `String(s || "")` coerces a missing (or
empty) value to the empty string. -/
def normalizeText (s : Option String) : String :=
  normStr (s.getD "")

/-- Reference collapse following the spec sentence "collapse any run of
whitespace characters to a single ASCII space": a whitespace head emits
one space and skips the rest of its run. -/
def collapseRuns : List Char → List Char
  | [] => []
  | c :: t =>
    if jsWs c then ' ' :: collapseRuns (t.dropWhile jsWs)
    else c :: collapseRuns t
termination_by l => l.length
decreasing_by
  · simp only [List.length_cons]
    exact Nat.lt_succ_of_le (List.dropWhile_suffix jsWs).sublist.length_le
  · simp

/-- Reference normalization following the spec Contract A word for
word: coerce a missing/undefined input to the empty string, trim
leading and trailing whitespace, and collapse every whitespace run to a
single ASCII space. -/
def normalizeSpecRef (raw : Option String) : String :=
  ⟨collapseRuns (trimChars (raw.getD "").data)⟩

/-- JavaScript `String.prototype.length`: the number of UTF-16 code
units (characters outside the basic multilingual plane count as 2). -/
def utf16Len (s : String) : Nat :=
  (s.data.map (fun c => if c.toNat < 0x10000 then 1 else 2)).sum

/-- Plain `(s || "").trim()` of the simple variant. -/
def jsTrim (s : String) : String :=
  ⟨trimChars s.data⟩

/-- A row of the `messages` table (the auto-assigned `id` is not needed
by any claim). -/
structure Msg where
  text : String
  created_at : Int
deriving Repr, DecidableEq

/-- The database state: the `rate_limits` table (association list from
`ip_hash` to `last_ts`, one row per key) and the `messages` table in
insertion order. -/
structure Store where
  rate_limits : List (String × Int)
  messages : List Msg
deriving Repr, DecidableEq

/-- The observable parts of a handler response: HTTP status and the
JSON envelope fields, plus the optional `Retry-After` header. -/
structure HttpResponse where
  status : Nat
  ok : Bool
  error : Option String
  retry_after_ms : Option Int
  retryAfter : Option String
deriving Repr, DecidableEq

/-- A POST request body: either `request.json()` throws, or it parses
to an object whose `text` field is an (optional) string. -/
inductive ReqBody where
  | invalid
  | valid (text : Option String)
deriving Repr, DecidableEq

/-- The 30 000 ms rate-limit window of the full variant. -/
def WINDOW_MS : Int := 30000

/-- `SELECT last_ts FROM rate_limits WHERE ip_hash = ?` followed by
`.first()`. -/
def rlLookup (k : String) : List (String × Int) → Option Int
  | [] => none
  | p :: ps => if p.1 = k then some p.2 else rlLookup k ps

/-- `INSERT INTO rate_limits ... ON CONFLICT(ip_hash) DO UPDATE SET
last_ts=excluded.last_ts`: replace the row for the key, or append a new
one. -/
def upsertRL (k : String) (ts : Int) (rl : List (String × Int)) :
    List (String × Int) :=
  if rl.any (fun p => p.1 = k) then
    rl.map (fun p => if p.1 = k then (k, ts) else p)
  else rl ++ [(k, ts)]

/-- The throttling decision of the full variant, mirroring
`if (rlRow?.last_ts && now - rlRow.last_ts < WINDOW_MS)`.  Note that a
stored `last_ts` of `0` is falsy in JavaScript, so such a row does not
throttle.  On a hit the result carries `retryAfterMs`. -/
def rlHit (rl : List (String × Int)) (k : String) (now : Int) :
    Option Int :=
  match rlLookup k rl with
  | none => none
  | some ts =>
    if ts ≠ 0 ∧ now - ts < WINDOW_MS then some (WINDOW_MS - (now - ts))
    else none

/-- `Math.ceil(ms / 1000)` for the (always positive) retry time on the
throttled path. -/
def ceilDiv1000 (ms : Int) : Int := (ms + 999) / 1000

/-- POST handler of the full variant (`part_000` lines 118-197): check
the rate limit; on a hit answer 429 with `retry_after_ms` and a
`Retry-After` header in whole seconds rounded up; otherwise upsert
`(ipHash, now)`, then parse the body, normalize and validate the text
(`!text || text.length < 1 || text.length > 50`), and on success insert
the message with `created_at = now`. -/
def handlePost (st : Store) (ipHash : String) (now : Int)
    (body : ReqBody) : HttpResponse × Store :=
  match rlHit st.rate_limits ipHash now with
  | some retryMs =>
    (⟨429, false, some "Too many requests", some retryMs,
      some (toString (ceilDiv1000 retryMs))⟩, st)
  | none =>
    let st1 : Store :=
      ⟨upsertRL ipHash now st.rate_limits, st.messages⟩
    match body with
    | ReqBody.invalid =>
      (⟨400, false, some "Invalid JSON", none, none⟩, st1)
    | ReqBody.valid t =>
      let text := normalizeText t
      if text = "" ∨ utf16Len text < 1 ∨ utf16Len text > 50 then
        (⟨400, false, some "Text must be 1-50 chars", none, none⟩, st1)
      else
        (⟨200, true, none, none, none⟩,
          ⟨st1.rate_limits, st1.messages ++ [⟨text, now⟩]⟩)

/-- Ordering used by `ORDER BY created_at DESC`: newer (or equal)
timestamps first. -/
def msgGe (a b : Msg) : Prop := b.created_at ≤ a.created_at

instance : DecidableRel msgGe := fun a b =>
  inferInstanceAs (Decidable (b.created_at ≤ a.created_at))

instance : IsTotal Msg msgGe :=
  ⟨fun a b => (le_total b.created_at a.created_at).imp id id⟩

instance : IsTrans Msg msgGe :=
  ⟨fun _ _ _ hab hbc => le_trans hbc hab⟩

/-- `SELECT id, text, created_at FROM messages ORDER BY created_at DESC
LIMIT 10`, modelled with a stable sort (ties keep insertion order, the
de-facto row order of the table scan). -/
def listRecent (msgs : List Msg) : List Msg :=
  (List.insertionSort msgGe msgs).take 10

/-- GET handler (both variants): the data array of the 200 response. -/
def handleGet (st : Store) : List Msg :=
  listRecent st.messages

/-- POST handler of the simple variant (`messages.js` lines 47-78): no
rate limiting at all; the text is `(body?.text || "").trim()` and the
validation is `!text || text.length > 50`. -/
def handlePostSimple (st : Store) (body : ReqBody) (now : Int) :
    HttpResponse × Store :=
  match body with
  | ReqBody.invalid =>
    (⟨400, false, some "Invalid JSON", none, none⟩, st)
  | ReqBody.valid t =>
    let text := jsTrim (t.getD "")
    if text = "" ∨ utf16Len text > 50 then
      (⟨400, false, some "Text must be 1-50 chars", none, none⟩, st)
    else
      (⟨200, true, none, none, none⟩,
        ⟨st.rate_limits, st.messages ++ [⟨text, now⟩]⟩)

/-- Heads that are acceptable after a trim: empty list or a
non-whitespace first character. -/
def headOkB : List Char → Bool
  | [] => true
  | c :: _ => !jsWs c

/-- Tails that are acceptable after a trim: empty list or a
non-whitespace last character. -/
def lastOkB : List Char → Bool
  | [] => true
  | [c] => !jsWs c
  | _ :: d :: r => lastOkB (d :: r)

/-- No two adjacent whitespace characters. -/
def collapsedB : List Char → Bool
  | [] => true
  | [_] => true
  | c :: d :: r => !(jsWs c && jsWs d) && collapsedB (d :: r)

/-- Every whitespace character is the ASCII space. -/
def wsSpacesB (l : List Char) : Bool :=
  l.all (fun c => !jsWs c || c = ' ')

theorem jsWs_space : jsWs ' ' = true := by decide

theorem headOkB_append {p q : List Char} (h : headOkB (p ++ q) = true) :
    headOkB p = true := by
  cases p with
  | nil => rfl
  | cons c p => simpa [headOkB] using h

theorem headOkB_dropWhile (l : List Char) :
    headOkB (l.dropWhile jsWs) = true := by
  induction l with
  | nil => rfl
  | cons c t ih =>
    by_cases h : jsWs c = true
    · simpa [List.dropWhile, h] using ih
    · simp [List.dropWhile, h, headOkB]

theorem dropWhile_of_headOkB {l : List Char} (h : headOkB l = true) :
    l.dropWhile jsWs = l := by
  cases l with
  | nil => rfl
  | cons c t =>
    simp only [headOkB, Bool.not_eq_true'] at h
    simp [List.dropWhile, h]

theorem lastOkB_eq_headOkB_reverse (l : List Char) :
    lastOkB l = headOkB l.reverse := by
  induction l using lastOkB.induct with
  | case1 => rfl
  | case2 c => rfl
  | case3 c d r ih =>
    rcases h : (d :: r).reverse with _ | ⟨x, xs⟩
    · exact absurd (List.reverse_eq_nil_iff.mp h) (by simp)
    · have : (c :: d :: r).reverse = x :: (xs ++ [c]) := by
        simp only [List.reverse_cons] at h ⊢
        rw [h]; simp
      rw [lastOkB, ih, h, this, headOkB, headOkB]

theorem trimChars_eq_reverse_dropWhile (l : List Char) :
    trimChars l =
      (((l.dropWhile jsWs).reverse.dropWhile jsWs)).reverse := rfl

theorem trimChars_headOkB (l : List Char) :
    headOkB (trimChars l) = true := by
  obtain ⟨t, ht⟩ :=
    List.dropWhile_suffix (l := (l.dropWhile jsWs).reverse) jsWs
  have hu : headOkB (l.dropWhile jsWs) = true := headOkB_dropWhile l
  have hsplit : l.dropWhile jsWs =
      ((l.dropWhile jsWs).reverse.dropWhile jsWs).reverse ++ t.reverse := by
    conv_lhs => rw [← List.reverse_reverse (l.dropWhile jsWs), ← ht]
    simp
  rw [hsplit] at hu
  exact headOkB_append hu

theorem trimChars_lastOkB (l : List Char) :
    lastOkB (trimChars l) = true := by
  rw [lastOkB_eq_headOkB_reverse, trimChars_eq_reverse_dropWhile,
    List.reverse_reverse]
  exact headOkB_dropWhile _

theorem trimChars_self {l : List Char} (h1 : headOkB l = true)
    (h2 : lastOkB l = true) : trimChars l = l := by
  rw [trimChars_eq_reverse_dropWhile, dropWhile_of_headOkB h1,
    dropWhile_of_headOkB (by rw [← lastOkB_eq_headOkB_reverse]; exact h2),
    List.reverse_reverse]

theorem collapseWs_cons (c : Char) (r : List Char) :
    ∃ t, collapseWs (c :: r) = (if jsWs c then ' ' else c) :: t := by
  induction r generalizing c with
  | nil =>
    refine ⟨[], ?_⟩
    by_cases h : jsWs c = true <;> simp [collapseWs, h]
  | cons d r ih =>
    by_cases h : (jsWs c && jsWs d) = true
    · obtain ⟨t, ht⟩ := ih d
      rw [Bool.and_eq_true] at h
      exact ⟨t, by rw [collapseWs, if_pos (by rw [Bool.and_eq_true]; exact h),
        ht, if_pos h.2, if_pos h.1]⟩
    · exact ⟨collapseWs (d :: r), by rw [collapseWs, if_neg (by simpa using h)]⟩

theorem collapseWs_ne_nil (c : Char) (r : List Char) :
    collapseWs (c :: r) ≠ [] := by
  obtain ⟨t, ht⟩ := collapseWs_cons c r
  simp [ht]

theorem collapse_eq_runs (l : List Char) : collapseWs l = collapseRuns l := by
  induction l using collapseWs.induct with
  | case1 => rw [collapseRuns]; rfl
  | case2 c hc => simp [collapseWs, collapseRuns, hc, List.dropWhile]
  | case3 c hc => simp [collapseWs, collapseRuns, hc]
  | case4 c d rest h ih =>
    have h2 := h
    rw [Bool.and_eq_true] at h2
    obtain ⟨hc, hd⟩ := h2
    rw [collapseWs, if_pos h, ih]
    simp only [collapseRuns]
    simp [hc, hd, List.dropWhile]
  | case5 c d rest h ih =>
    rw [collapseWs, if_neg h, ih]
    simp only [Bool.and_eq_true, not_and] at h
    by_cases hc : jsWs c = true
    · have hd : jsWs d = false := by
        have := h hc
        simpa using this
      simp [collapseRuns, hc, hd, List.dropWhile]
    · simp only [Bool.not_eq_true] at hc
      simp [collapseRuns, hc]

theorem collapseWs_headOkB {l : List Char} (h : headOkB l = true) :
    headOkB (collapseWs l) = true := by
  cases l with
  | nil => rfl
  | cons c r =>
    simp only [headOkB, Bool.not_eq_true'] at h
    obtain ⟨t, ht⟩ := collapseWs_cons c r
    rw [ht, if_neg (by simp [h])]
    simp [headOkB, h]

theorem collapseWs_lastOkB {l : List Char} (h : lastOkB l = true) :
    lastOkB (collapseWs l) = true := by
  induction l using collapseWs.induct with
  | case1 => rfl
  | case2 c hc =>
    simp only [lastOkB, Bool.not_eq_true'] at h
    simp [h] at hc
  | case3 c hc =>
    simp [collapseWs, hc, lastOkB]
  | case4 c d rest hcd ih =>
    rw [collapseWs, if_pos hcd]
    exact ih h
  | case5 c d rest hcd ih =>
    rw [collapseWs, if_neg hcd]
    obtain ⟨t, ht⟩ := collapseWs_cons d rest
    rw [ht, lastOkB, ← ht]
    exact ih h

theorem collapseWs_collapsedB (l : List Char) :
    collapsedB (collapseWs l) = true := by
  induction l using collapseWs.induct with
  | case1 => rfl
  | case2 c hc => simp [collapseWs, hc, collapsedB]
  | case3 c hc => simp [collapseWs, hc, collapsedB]
  | case4 c d rest hcd ih => rw [collapseWs, if_pos hcd]; exact ih
  | case5 c d rest hcd ih =>
    rw [collapseWs, if_neg hcd]
    obtain ⟨t, ht⟩ := collapseWs_cons d rest
    rw [ht, collapsedB, ← ht, Bool.and_eq_true]
    refine ⟨?_, ih⟩
    have hc : jsWs (if jsWs c then ' ' else c) = jsWs c := by
      by_cases h : jsWs c = true <;> simp [h, jsWs_space]
    have hd : jsWs (if jsWs d then ' ' else d) = jsWs d := by
      by_cases h : jsWs d = true <;> simp [h, jsWs_space]
    rw [hc, hd]
    simp only [Bool.not_eq_true] at hcd
    simp [hcd]

theorem collapseWs_wsSpacesB (l : List Char) :
    wsSpacesB (collapseWs l) = true := by
  induction l using collapseWs.induct with
  | case1 => rfl
  | case2 c hc => simp [collapseWs, hc, wsSpacesB]
  | case3 c hc => simp [collapseWs, hc, wsSpacesB]
  | case4 c d rest hcd ih => rw [collapseWs, if_pos hcd]; exact ih
  | case5 c d rest hcd ih =>
    rw [collapseWs, if_neg hcd]
    by_cases h : jsWs c = true <;>
      simpa [wsSpacesB, h] using ih

theorem collapseWs_self {l : List Char} (h1 : collapsedB l = true)
    (h2 : wsSpacesB l = true) : collapseWs l = l := by
  induction l using collapseWs.induct with
  | case1 => rfl
  | case2 c hc =>
    have : c = ' ' := by simpa [wsSpacesB, hc] using h2
    simp [collapseWs, hc, this]
  | case3 c hc => simp [collapseWs, hc]
  | case4 c d rest hcd ih =>
    rw [collapsedB, hcd] at h1
    simp at h1
  | case5 c d rest hcd ih =>
    rw [collapsedB, Bool.and_eq_true] at h1
    simp only [wsSpacesB, List.all_cons, Bool.and_eq_true] at h2
    have h2t : wsSpacesB (d :: rest) = true := by
      simp [wsSpacesB, h2.2.1, h2.2.2]
    rw [collapseWs, if_neg hcd, ih h1.2 h2t]
    by_cases h : jsWs c = true
    · have hsp : c = ' ' := by simpa [h] using h2.1
      rw [if_pos h, hsp]
    · rw [if_neg h]

theorem norm_idem_core (l : List Char) :
    collapseWs (trimChars (collapseWs (trimChars l))) =
      collapseWs (trimChars l) := by
  have h1 : headOkB (collapseWs (trimChars l)) = true :=
    collapseWs_headOkB (trimChars_headOkB l)
  have h2 : lastOkB (collapseWs (trimChars l)) = true :=
    collapseWs_lastOkB (trimChars_lastOkB l)
  rw [trimChars_self h1 h2]
  exact collapseWs_self (collapseWs_collapsedB _) (collapseWs_wsSpacesB _)

theorem length_le_utf16Len (s : String) : s.length ≤ utf16Len s := by
  show s.data.length ≤ utf16Len s
  unfold utf16Len
  induction s.data with
  | nil => simp
  | cons c t ih =>
    simp only [List.map_cons, List.sum_cons, List.length_cons]
    by_cases h : c.toNat < 0x10000 <;> simp [h] <;> omega

theorem ne_empty_of_utf16 {s : String} (h : 1 ≤ utf16Len s) : ¬s = "" := by
  intro he
  rw [he] at h
  simp [utf16Len] at h

theorem rlLookup_append_notfound {k : String} {rl : List (String × Int)}
    (h : rl.any (fun p => p.1 = k) = false) (m : List (String × Int)) :
    rlLookup k (rl ++ m) = rlLookup k m := by
  induction rl with
  | nil => rfl
  | cons p ps ih =>
    simp only [List.any_cons, Bool.or_eq_false_iff] at h
    rw [List.cons_append, rlLookup, if_neg (by simpa using h.1)]
    exact ih h.2

theorem rlLookup_map_upsert {k : String} {rl : List (String × Int)}
    (ts : Int) (h : rl.any (fun p => p.1 = k) = true) :
    rlLookup k (rl.map (fun p => if p.1 = k then (k, ts) else p)) =
      some ts := by
  induction rl with
  | nil => simp at h
  | cons p ps ih =>
    by_cases hp : p.1 = k
    · simp only [List.map_cons, if_pos hp]
      rw [rlLookup, if_pos rfl]
    · simp only [List.any_cons, Bool.or_eq_true] at h
      rcases h with h | h

      · exact absurd (by simpa using h) hp
      · simp only [List.map_cons, if_neg hp]
        rw [rlLookup, if_neg hp]
        exact ih h

theorem rlLookup_upsert_self (k : String) (ts : Int)
    (rl : List (String × Int)) :
    rlLookup k (upsertRL k ts rl) = some ts := by
  unfold upsertRL
  by_cases h : rl.any (fun p => p.1 = k) = true
  · rw [if_pos h]
    exact rlLookup_map_upsert ts h
  · have h2 : rl.any (fun p => p.1 = k) = false := by
      rcases Bool.eq_false_or_eq_true (rl.any (fun p => p.1 = k)) with h0 | h0
      · exact absurd h0 h
      · exact h0
    rw [if_neg h, rlLookup_append_notfound h2, rlLookup, if_pos rfl]

theorem handlePost_throttled {st : Store} {k : String} {now r : Int}
    (body : ReqBody) (h : rlHit st.rate_limits k now = some r) :
    handlePost st k now body =
      (⟨429, false, some "Too many requests", some r,
        some (toString (ceilDiv1000 r))⟩, st) := by
  unfold handlePost
  rw [h]

theorem handlePost_pass_invalid {st : Store} {k : String} {now : Int}
    (h : rlHit st.rate_limits k now = none) :
    handlePost st k now ReqBody.invalid =
      (⟨400, false, some "Invalid JSON", none, none⟩,
        ⟨upsertRL k now st.rate_limits, st.messages⟩) := by
  unfold handlePost
  rw [h]

theorem handlePost_pass_badtext {st : Store} {k : String} {now : Int}
    {t : Option String} (h : rlHit st.rate_limits k now = none)
    (hbad : normalizeText t = "" ∨ utf16Len (normalizeText t) < 1 ∨
      utf16Len (normalizeText t) > 50) :
    handlePost st k now (ReqBody.valid t) =
      (⟨400, false, some "Text must be 1-50 chars", none, none⟩,
        ⟨upsertRL k now st.rate_limits, st.messages⟩) := by
  unfold handlePost
  rw [h]
  simp only [if_pos hbad]

theorem handlePost_pass_goodtext {st : Store} {k : String} {now : Int}
    {t : Option String} (h : rlHit st.rate_limits k now = none)
    (hgood : ¬(normalizeText t = "" ∨ utf16Len (normalizeText t) < 1 ∨
      utf16Len (normalizeText t) > 50)) :
    handlePost st k now (ReqBody.valid t) =
      (⟨200, true, none, none, none⟩,
        ⟨upsertRL k now st.rate_limits,
          st.messages ++ [⟨normalizeText t, now⟩]⟩) := by
  unfold handlePost
  rw [h]
  simp only [if_neg hgood]

theorem handlePost_pass_frame {st : Store} {k : String} {now : Int}
    (body : ReqBody) (h : rlHit st.rate_limits k now = none) :
    (handlePost st k now body).1.status ≠ 429 ∧
    (handlePost st k now body).2.rate_limits = upsertRL k now st.rate_limits := by
  cases body with
  | invalid => rw [handlePost_pass_invalid h]; exact ⟨by simp, rfl⟩
  | valid t =>
    by_cases hv : normalizeText t = "" ∨ utf16Len (normalizeText t) < 1 ∨
        utf16Len (normalizeText t) > 50
    · rw [handlePost_pass_badtext h hv]; exact ⟨by simp, rfl⟩
    · rw [handlePost_pass_goodtext h hv]; exact ⟨by simp, rfl⟩

theorem rlHit_pos {rl : List (String × Int)} {k : String} {now r : Int}
    (h : rlHit rl k now = some r) : 0 < r := by
  unfold rlHit at h
  rcases hl : rlLookup k rl with _ | ts <;> rw [hl] at h
  · exact absurd h (by simp)
  · have h2 : (if ts ≠ 0 ∧ now - ts < WINDOW_MS then
        some (WINDOW_MS - (now - ts)) else none) = some r := h
    by_cases hc : ts ≠ 0 ∧ now - ts < WINDOW_MS
    · rw [if_pos hc] at h2
      have h3 : WINDOW_MS - (now - ts) = r := by simpa using h2
      have hw : (WINDOW_MS : Int) = 30000 := rfl
      omega
    · rw [if_neg hc] at h2; exact absurd h2 (by simp)

theorem rlHit_upsert (k : String) (now now₂ : Int)
    (rl : List (String × Int)) :
    rlHit (upsertRL k now rl) k now₂ =
      if now ≠ 0 ∧ now₂ - now < WINDOW_MS then
        some (WINDOW_MS - (now₂ - now))
      else none := by
  unfold rlHit
  rw [rlLookup_upsert_self]

theorem mem_listRecent_of_countP {msgs : List Msg} {m : Msg}
    (hm : m ∈ msgs)
    (hc : msgs.countP (fun x => decide (m.created_at ≤ x.created_at)) ≤ 10) :
    m ∈ listRecent msgs := by
  have hperm : (List.insertionSort msgGe msgs).Perm msgs :=
    List.perm_insertionSort msgGe msgs
  have hsort : (List.insertionSort msgGe msgs).Pairwise msgGe :=
    List.sorted_insertionSort msgGe msgs
  have hmem : m ∈ List.insertionSort msgGe msgs := hperm.mem_iff.mpr hm
  obtain ⟨i, hi, hgi⟩ := List.mem_iff_getElem.mp hmem
  set sorted := List.insertionSort msgGe msgs with hs
  have hlen1 : (sorted.take (i + 1)).length = i + 1 := by
    rw [List.length_take]; omega
  have hpre : ∀ x ∈ sorted.take (i + 1),
      (fun x => decide (m.created_at ≤ x.created_at)) x = true := by
    intro x hx
    obtain ⟨j, hj, hgj⟩ := List.mem_iff_getElem.mp hx
    have hj1 : j < i + 1 := by rw [hlen1] at hj; exact hj
    rw [List.getElem_take] at hgj
    simp only [decide_eq_true_eq]
    rcases Nat.lt_or_ge j i with hji | hji
    · have := List.pairwise_iff_getElem.mp hsort j i (by omega) hi hji
      rw [hgi] at this
      rw [← hgj]
      exact this
    · have hji2 : j = i := by omega
      subst hji2
      rw [hgi] at hgj
      rw [← hgj]

  have hcount : i + 1 ≤
      msgs.countP (fun x => decide (m.created_at ≤ x.created_at)) := by
    have h1 : (sorted.take (i + 1)).countP
        (fun x => decide (m.created_at ≤ x.created_at)) = i + 1 := by
      rw [List.countP_eq_length.mpr hpre, hlen1]
    have h2 : sorted.countP (fun x => decide (m.created_at ≤ x.created_at)) =
        msgs.countP (fun x => decide (m.created_at ≤ x.created_at)) :=
      hperm.countP_eq _
    have h3 := List.take_append_drop (i + 1) sorted
    have h4 : sorted.countP (fun x => decide (m.created_at ≤ x.created_at)) =
        (sorted.take (i + 1)).countP (fun x => decide (m.created_at ≤ x.created_at)) +
        (sorted.drop (i + 1)).countP (fun x => decide (m.created_at ≤ x.created_at)) := by
      conv_lhs => rw [← h3]
      rw [List.countP_append]
    omega
  have hi10 : i < 10 := by omega
  have hitake : i < (sorted.take 10).length := by
    rw [List.length_take]; omega
  have hgm : (sorted.take 10).get ⟨i, hitake⟩ = m := by
    rw [List.get_eq_getElem, List.getElem_take]
    exact hgi
  rw [← hgm]
  exact List.get_mem _ _ _

/-- C7: the full variant's `normalizeText` computes, for every
string-or-undefined input, exactly the spec's reference normalization
(coerce missing input to the empty string, trim, collapse every
whitespace run to a single ASCII space). -/
theorem C7_normalizeText_matches_spec (raw : Option String) :
    normalizeText raw = normalizeSpecRef raw := by
  unfold normalizeText normalizeSpecRef normStr
  exact congrArg String.mk (collapse_eq_runs _)

/-- C8: normalization is idempotent; applying the full variant's
`normalizeText` to its own output returns the output unchanged. -/
theorem C8_normalize_idempotent (s : String) :
    normalizeText (some (normalizeText (some s))) = normalizeText (some s) := by
  show normStr (normStr s) = normStr s
  unfold normStr
  exact congrArg String.mk (norm_idem_core s.data)

theorem str_eq_empty_of_length {s : String} (h : s.length = 0) : s = "" := by
  cases s with
  | mk l =>
    cases l with
    | nil => rfl
    | cons c t => exact absurd h (by simp [String.length])

/-- C1 counterexample: the claim's rate-limit dichotomy fails on the
code.  With a stored entry `("k", 0)` and `now = 5` the entry is
present and `now - last_ts = 5 < 30000`, so the claim demands a 429;
but `rlRow?.last_ts` is falsy for `0` in JavaScript and the code
allows the request (status 200).  With a stored entry
`("k", 100000)` and `now = 50000` (clock moved backwards) the request
is throttled but `retry_after_ms = 80000 > 30000`, contradicting the
claimed bound `retry_after_ms <= 30000`. -/
theorem C1_cex :
    rlLookup "k" [("k", 0)] = some 0 ∧ ((5 : Int) - 0 < 30000) ∧
    (handlePost ⟨[("k", 0)], []⟩ "k" 5 (ReqBody.valid (some "hi"))).1.status = 200 ∧
    rlLookup "k" [("k", 100000)] = some 100000 ∧
    ((50000 : Int) - 100000 < 30000) ∧
    (handlePost ⟨[("k", 100000)], []⟩ "k" 50000 (ReqBody.valid (some "hi"))).1.status = 429 ∧
    (handlePost ⟨[("k", 100000)], []⟩ "k" 50000 (ReqBody.valid (some "hi"))).1.retry_after_ms =
      some 80000 := by
  decide

/-- C1 (amended): the full variant's rate limiter decides as follows.
If the stored entry is absent, has `last_ts = 0` (falsy in JS), or
satisfies `now - last_ts >= 30000`, the request is allowed (not 429)
and `(clientKey, now)` is upserted.  If an entry with nonzero
`last_ts` is present and `now - last_ts < 30000`, the request is
throttled with status 429 and `retry_after_ms = 30000 - (now -
last_ts) > 0`, which is moreover at most 30000 whenever `last_ts <=
now`.  Consequently, of two POSTs from the same client key where the
first (at a positive clock value) passed the check, the second is
throttled when within 30000 ms of the first and allowed when separated
by at least 30000 ms. -/
theorem C1_rate_limit_decision (st : Store) (k : String) (now : Int)
    (body : ReqBody) :
    ((rlLookup k st.rate_limits = none ∨ rlLookup k st.rate_limits = some 0 ∨
        (∃ ts, rlLookup k st.rate_limits = some ts ∧ WINDOW_MS ≤ now - ts)) →
      (handlePost st k now body).1.status ≠ 429 ∧
      (handlePost st k now body).2.rate_limits = upsertRL k now st.rate_limits) ∧
    (∀ ts, rlLookup k st.rate_limits = some ts → ts ≠ 0 →
      now - ts < WINDOW_MS →
      (handlePost st k now body).1.status = 429 ∧
      (handlePost st k now body).1.retry_after_ms =
        some (WINDOW_MS - (now - ts)) ∧
      0 < WINDOW_MS - (now - ts) ∧
      (ts ≤ now → WINDOW_MS - (now - ts) ≤ WINDOW_MS)) ∧
    ((rlHit st.rate_limits k now = none ∧ 0 < now) →
      ∀ now₂ body₂,
        (now₂ - now < WINDOW_MS →
          (handlePost (handlePost st k now body).2 k now₂ body₂).1.status = 429) ∧
        (WINDOW_MS ≤ now₂ - now →
          (handlePost (handlePost st k now body).2 k now₂ body₂).1.status ≠ 429)) := by
  have hw : (WINDOW_MS : Int) = 30000 := rfl
  refine ⟨?_, ?_, ?_⟩
  · intro h
    have hnone : rlHit st.rate_limits k now = none := by
      unfold rlHit
      rcases h with h | h | ⟨ts, hts, hge⟩
      · rw [h]
      · rw [h]; simp
      · rw [hts]
        show (if ts ≠ 0 ∧ now - ts < WINDOW_MS then
          some (WINDOW_MS - (now - ts)) else none) = none
        rw [if_neg]
        intro hc
        obtain ⟨hc1, hc2⟩ := hc
        omega
    exact handlePost_pass_frame body hnone
  · intro ts hts hne hlt
    have hsome : rlHit st.rate_limits k now =
        some (WINDOW_MS - (now - ts)) := by
      unfold rlHit
      rw [hts]
      show (if ts ≠ 0 ∧ now - ts < WINDOW_MS then
        some (WINDOW_MS - (now - ts)) else none) = some (WINDOW_MS - (now - ts))
      rw [if_pos ⟨hne, hlt⟩]
    rw [handlePost_throttled body hsome]
    exact ⟨rfl, rfl, by omega, fun hle => by omega⟩
  · rintro ⟨hnone, hpos⟩ now₂ body₂
    have hrl : (handlePost st k now body).2.rate_limits =
        upsertRL k now st.rate_limits :=
      (handlePost_pass_frame body hnone).2
    constructor
    · intro hlt
      have hhit : rlHit (handlePost st k now body).2.rate_limits k now₂ =
          some (WINDOW_MS - (now₂ - now)) := by
        rw [hrl, rlHit_upsert, if_pos ⟨by omega, hlt⟩]
      rw [handlePost_throttled body₂ hhit]
    · intro hge
      have hhit : rlHit (handlePost st k now body).2.rate_limits k now₂ =
          none := by
        rw [hrl, rlHit_upsert, if_neg]
        intro hc
        obtain ⟨hc1, hc2⟩ := hc
        omega
      exact (handlePost_pass_frame body₂ hhit).1

/-- Witness for C1 at concrete inputs: a first POST on an empty store
is allowed and upserts; a POST against a fresh nonzero entry 5 ms old
is throttled; a second POST 5 ms after a passed first one is
throttled. -/
theorem C1_rate_limit_decision_witness :
    (handlePost ⟨[], []⟩ "k" 7 (ReqBody.valid (some "hi"))).1.status ≠ 429 ∧
    (handlePost ⟨[], []⟩ "k" 7 (ReqBody.valid (some "hi"))).2.rate_limits =
      upsertRL "k" 7 [] ∧
    (handlePost ⟨[("k", 10)], []⟩ "k" 15 ReqBody.invalid).1.status = 429 ∧
    (handlePost (handlePost ⟨[], []⟩ "k" 7 (ReqBody.valid (some "hi"))).2
      "k" 12 ReqBody.invalid).1.status = 429 := by
  refine ⟨((C1_rate_limit_decision ⟨[], []⟩ "k" 7 (ReqBody.valid (some "hi"))).1
      (Or.inl rfl)).1,
    ((C1_rate_limit_decision ⟨[], []⟩ "k" 7 (ReqBody.valid (some "hi"))).1
      (Or.inl rfl)).2,
    ((C1_rate_limit_decision ⟨[("k", 10)], []⟩ "k" 15 ReqBody.invalid).2.1
      10 rfl (by decide) (by decide)).1,
    ((C1_rate_limit_decision ⟨[], []⟩ "k" 7 (ReqBody.valid (some "hi"))).2.2
      ⟨by decide, by decide⟩ 12 ReqBody.invalid).1 (by decide)⟩

/-- C2 counterexample, two independent failures.  First, with ten
existing messages at `created_at = 1000` and a POST at `now = 5`
(reachable when the clock moved backwards between requests), the POST
succeeds but the new message is not among the top 10 returned by GET.
Second, the code validates `text.length`, which counts UTF-16 code
units: a normalized text of 26 astral characters (length 26 in
characters, within the claimed 1..50) is rejected with 400 because its
UTF-16 length is 52. -/
theorem C2_cex :
    (1 ≤ (normalizeText (some "hi")).length ∧
      (normalizeText (some "hi")).length ≤ 50) ∧
    rlHit [] "k" 5 = none ∧
    (handlePost ⟨[], List.replicate 10 ⟨"old", 1000⟩⟩ "k" 5
      (ReqBody.valid (some "hi"))).1.status = 200 ∧
    Msg.mk "hi" 5 ∉ handleGet (handlePost ⟨[], List.replicate 10 ⟨"old", 1000⟩⟩
      "k" 5 (ReqBody.valid (some "hi"))).2 ∧
    (1 ≤ (normalizeText (some (String.mk (List.replicate 26 (Char.ofNat 0x1F600))))).length ∧
      (normalizeText (some (String.mk (List.replicate 26 (Char.ofNat 0x1F600))))).length ≤ 50 ∧
      (handlePost ⟨[], []⟩ "k" 5
        (ReqBody.valid (some (String.mk (List.replicate 26 (Char.ofNat 0x1F600)))))).1.status = 400) := by
  decide

/-- C2 (amended): a POST whose body parses and whose text normalizes
to a UTF-16 length between 1 and 50, from a client key that passes the
rate-limit check, returns 200 `ok`, appends exactly one message row
with the normalized text and `created_at = now`, and — provided fewer
than 10 existing messages have `created_at >= now` — that message
appears in a subsequent GET among the top 10 by recency. -/
theorem C2_valid_post (st : Store) (k : String) (now : Int)
    (t : Option String)
    (hpass : rlHit st.rate_limits k now = none)
    (hlo : 1 ≤ utf16Len (normalizeText t))
    (hhi : utf16Len (normalizeText t) ≤ 50)
    (hcount : st.messages.countP (fun m => decide (now ≤ m.created_at)) ≤ 9) :
    (handlePost st k now (ReqBody.valid t)).1.status = 200 ∧
    (handlePost st k now (ReqBody.valid t)).1.ok = true ∧
    (handlePost st k now (ReqBody.valid t)).2.messages =
      st.messages ++ [⟨normalizeText t, now⟩] ∧
    Msg.mk (normalizeText t) now ∈
      handleGet (handlePost st k now (ReqBody.valid t)).2 := by
  have hgood : ¬(normalizeText t = "" ∨ utf16Len (normalizeText t) < 1 ∨
      utf16Len (normalizeText t) > 50) := by
    push_neg
    exact ⟨ne_empty_of_utf16 hlo, by omega, by omega⟩
  rw [handlePost_pass_goodtext hpass hgood]
  refine ⟨rfl, rfl, rfl, ?_⟩
  show Msg.mk (normalizeText t) now ∈
    listRecent (st.messages ++ [⟨normalizeText t, now⟩])
  apply mem_listRecent_of_countP
  · exact List.mem_append_right _ (List.mem_singleton.mpr rfl)
  · rw [List.countP_append]
    have h1 : List.countP
        (fun x : Msg => decide ((Msg.mk (normalizeText t) now).created_at ≤ x.created_at))
        [⟨normalizeText t, now⟩] = 1 := by simp
    have h2 : List.countP
        (fun x : Msg => decide ((Msg.mk (normalizeText t) now).created_at ≤ x.created_at))
        st.messages ≤ 9 := hcount
    omega

/-- Witness for C2: a valid POST on the empty store succeeds and its
message is returned by the subsequent GET. -/
theorem C2_valid_post_witness :
    (rlHit [] "k" 5 = none ∧ 1 ≤ utf16Len (normalizeText (some "hi")) ∧
      utf16Len (normalizeText (some "hi")) ≤ 50 ∧
      List.countP (fun m => decide ((5 : Int) ≤ m.created_at)) ([] : List Msg) ≤ 9) ∧
    (handlePost ⟨[], []⟩ "k" 5 (ReqBody.valid (some "hi"))).1.status = 200 ∧
    (handlePost ⟨[], []⟩ "k" 5 (ReqBody.valid (some "hi"))).1.ok = true ∧
    (handlePost ⟨[], []⟩ "k" 5 (ReqBody.valid (some "hi"))).2.messages =
      [] ++ [⟨normalizeText (some "hi"), 5⟩] ∧
    Msg.mk (normalizeText (some "hi")) 5 ∈
      handleGet (handlePost ⟨[], []⟩ "k" 5 (ReqBody.valid (some "hi"))).2 := by
  refine ⟨⟨by decide, by decide, by decide, by decide⟩, ?_⟩
  exact C2_valid_post ⟨[], []⟩ "k" 5 (some "hi") (by decide) (by decide)
    (by decide) (by decide)

/-- C3 counterexample: a POST whose text normalizes to length 0 does
not return 400 when the client is inside the rate-limit window — the
code checks the rate limit before parsing the body and answers 429. -/
theorem C3_cex :
    (normalizeText (some "")).length = 0 ∧
    (handlePost ⟨[("k", 10)], []⟩ "k" 15 (ReqBody.valid (some ""))).1.status = 429 ∧
    ¬(handlePost ⟨[("k", 10)], []⟩ "k" 15 (ReqBody.valid (some ""))).1.status = 400 := by
  decide

/-- C3 (amended): a POST that passes the rate-limit check, whose body
parses as JSON but whose text normalizes to length 0 or to length
greater than 50 characters, returns 400 with error
"Text must be 1-50 chars" and inserts no row into the messages
table. -/
theorem C3_invalid_text (st : Store) (k : String) (now : Int)
    (t : Option String)
    (hpass : rlHit st.rate_limits k now = none)
    (hlen : (normalizeText t).length = 0 ∨ 50 < (normalizeText t).length) :
    (handlePost st k now (ReqBody.valid t)).1.status = 400 ∧
    (handlePost st k now (ReqBody.valid t)).1.error =
      some "Text must be 1-50 chars" ∧
    (handlePost st k now (ReqBody.valid t)).2.messages = st.messages := by
  have hbad : normalizeText t = "" ∨ utf16Len (normalizeText t) < 1 ∨
      utf16Len (normalizeText t) > 50 := by
    rcases hlen with h | h
    · exact Or.inl (str_eq_empty_of_length h)
    · exact Or.inr (Or.inr (lt_of_lt_of_le h (length_le_utf16Len _)))
  rw [handlePost_pass_badtext hpass hbad]
  exact ⟨rfl, rfl, rfl⟩

/-- Witness for C3 at a concrete input: empty text on a fresh store. -/
theorem C3_invalid_text_witness :
    (rlHit [] "k" 3 = none ∧ (normalizeText (some "")).length = 0) ∧
    (handlePost ⟨[], []⟩ "k" 3 (ReqBody.valid (some ""))).1.status = 400 ∧
    (handlePost ⟨[], []⟩ "k" 3 (ReqBody.valid (some ""))).1.error =
      some "Text must be 1-50 chars" ∧
    (handlePost ⟨[], []⟩ "k" 3 (ReqBody.valid (some ""))).2.messages = [] := by
  refine ⟨⟨by decide, by decide⟩, ?_⟩
  exact C3_invalid_text ⟨[], []⟩ "k" 3 (some "") (by decide)
    (Or.inl (by decide))

/-- C4 counterexample: with a stored entry `("k", 0)` and `now = 5`
the claim's hypothesis holds (entry present, `now - last_ts = 5 <
30000`), yet the request is allowed (200) and both the rate-limit row
and the messages table change — JS truthiness treats `last_ts = 0` as
absent. -/
theorem C4_cex :
    rlLookup "k" [("k", 0)] = some 0 ∧ ((5 : Int) - 0 < 30000) ∧
    (handlePost ⟨[("k", 0)], []⟩ "k" 5 (ReqBody.valid (some "hi"))).1.status = 200 ∧
    ¬(handlePost ⟨[("k", 0)], []⟩ "k" 5 (ReqBody.valid (some "hi"))).2 =
      (⟨[("k", 0)], []⟩ : Store) := by
  decide

/-- C4 (amended): for every POST with a stored entry whose `last_ts`
is nonzero and satisfies `now - last_ts < 30000`, the handler answers
429 and leaves the whole store — rate-limit rows and messages table —
exactly as before. -/
theorem C4_throttled_frame (st : Store) (k : String) (now : Int)
    (body : ReqBody) :
    ∀ ts, rlLookup k st.rate_limits = some ts → ts ≠ 0 →
      now - ts < WINDOW_MS →
      (handlePost st k now body).1.status = 429 ∧
      (handlePost st k now body).2 = st := by
  intro ts hts hne hlt
  have hsome : rlHit st.rate_limits k now = some (WINDOW_MS - (now - ts)) := by
    unfold rlHit
    rw [hts]
    show (if ts ≠ 0 ∧ now - ts < WINDOW_MS then
      some (WINDOW_MS - (now - ts)) else none) = some (WINDOW_MS - (now - ts))
    rw [if_pos ⟨hne, hlt⟩]
  rw [handlePost_throttled body hsome]
  exact ⟨rfl, rfl⟩

/-- Witness for C4 at a concrete throttled input. -/
theorem C4_throttled_frame_witness :
    (handlePost ⟨[("k", 10)], []⟩ "k" 15 ReqBody.invalid).1.status = 429 ∧
    (handlePost ⟨[("k", 10)], []⟩ "k" 15 ReqBody.invalid).2 =
      (⟨[("k", 10)], []⟩ : Store) :=
  C4_throttled_frame ⟨[("k", 10)], []⟩ "k" 15 ReqBody.invalid 10 rfl
    (by decide) (by decide)

/-- C5 counterexample: if the failing POST happens at `now = 0`, the
upsert stores `last_ts = 0`, which JavaScript truthiness treats as
absent, so a following POST 5 ms later is NOT throttled (it returns
200), contradicting the claim's consequence. -/
theorem C5_cex :
    (handlePost ⟨[], []⟩ "k" 0 ReqBody.invalid).1.status = 400 ∧
    (handlePost ⟨[], []⟩ "k" 0 ReqBody.invalid).2.rate_limits = [("k", 0)] ∧
    ((5 : Int) - 0 < 30000) ∧
    (handlePost (handlePost ⟨[], []⟩ "k" 0 ReqBody.invalid).2 "k" 5
      (ReqBody.valid (some "hi"))).1.status = 200 := by
  decide

/-- C5 (amended): a POST that passes the rate-limit check and then
fails with 400 (malformed JSON or invalid text) still upserts
`(clientKey, now)` into `rate_limits` while inserting no message; and
provided `now ≠ 0` (a stored 0 is falsy), any following POST from the
same client within 30000 ms is throttled with 429, still with no
message created. -/
theorem C5_upsert_before_validation (st : Store) (k : String)
    (now : Int) (body : ReqBody)
    (hpass : rlHit st.rate_limits k now = none)
    (hbad : (handlePost st k now body).1.status = 400) :
    (handlePost st k now body).2.rate_limits =
      upsertRL k now st.rate_limits ∧
    (handlePost st k now body).2.messages = st.messages ∧
    (now ≠ 0 → ∀ now₂ body₂, now₂ - now < WINDOW_MS →
      (handlePost (handlePost st k now body).2 k now₂ body₂).1.status = 429 ∧
      (handlePost (handlePost st k now body).2 k now₂ body₂).2.messages =
        st.messages) := by
  have hmsg : (handlePost st k now body).2.messages = st.messages := by
    cases body with
    | invalid => rw [handlePost_pass_invalid hpass]
    | valid t =>
      by_cases hv : normalizeText t = "" ∨ utf16Len (normalizeText t) < 1 ∨
          utf16Len (normalizeText t) > 50
      · rw [handlePost_pass_badtext hpass hv]
      · rw [handlePost_pass_goodtext hpass hv] at hbad
        simp at hbad
  refine ⟨(handlePost_pass_frame body hpass).2, hmsg, ?_⟩
  intro hnz now₂ body₂ hlt
  have hhit : rlHit (handlePost st k now body).2.rate_limits k now₂ =
      some (WINDOW_MS - (now₂ - now)) := by
    rw [(handlePost_pass_frame body hpass).2, rlHit_upsert,
      if_pos ⟨hnz, hlt⟩]
  rw [handlePost_throttled body₂ hhit]
  exact ⟨rfl, hmsg⟩

/-- Witness for C5: an invalid-JSON POST at `now = 7` upserts the
window and blocks a POST at `now = 12`. -/
theorem C5_upsert_before_validation_witness :
    (handlePost ⟨[], []⟩ "k" 7 ReqBody.invalid).2.rate_limits =
      upsertRL "k" 7 [] ∧
    (handlePost ⟨[], []⟩ "k" 7 ReqBody.invalid).2.messages = [] ∧
    (handlePost (handlePost ⟨[], []⟩ "k" 7 ReqBody.invalid).2 "k" 12
      (ReqBody.valid (some "x"))).1.status = 429 := by
  obtain ⟨h1, h2, h3⟩ := C5_upsert_before_validation ⟨[], []⟩ "k" 7
    ReqBody.invalid (by decide) (by decide)
  exact ⟨h1, h2, (h3 (by decide) 12 (ReqBody.valid (some "x")) (by decide)).1⟩

/-- C6 counterexample: of two POSTs 5 ms apart from the same client,
the full variant throttles the second (429), while the simple variant
(`messages.js`) accepts both (200) and never touches any rate-limit
state — it implements no rate limiter at all, under either timestamp
policy it would have throttled the second POST. -/
theorem C6_cex :
    (handlePost ⟨[], []⟩ "k" 100 (ReqBody.valid (some "hi"))).1.status = 200 ∧
    (handlePost (handlePost ⟨[], []⟩ "k" 100 (ReqBody.valid (some "hi"))).2
      "k" 105 (ReqBody.valid (some "hi"))).1.status = 429 ∧
    (handlePostSimple ⟨[], []⟩ (ReqBody.valid (some "hi")) 100).1.status = 200 ∧
    (handlePostSimple (handlePostSimple ⟨[], []⟩ (ReqBody.valid (some "hi")) 100).2
      (ReqBody.valid (some "hi")) 105).1.status = 200 ∧
    (handlePostSimple (handlePostSimple ⟨[], []⟩ (ReqBody.valid (some "hi")) 100).2
      (ReqBody.valid (some "hi")) 105).2.rate_limits = [] := by
  decide

theorem handlePostSimple_valid (st : Store) (t : Option String)
    (now : Int) :
    handlePostSimple st (ReqBody.valid t) now =
      if jsTrim (t.getD "") = "" ∨ utf16Len (jsTrim (t.getD "")) > 50 then
        (⟨400, false, some "Text must be 1-50 chars", none, none⟩, st)
      else (⟨200, true, none, none, none⟩,
        ⟨st.rate_limits, st.messages ++ [⟨jsTrim (t.getD ""), now⟩]⟩) := rfl

/-- C6 (amended): only the full variant implements the rate limiter —
on a throttled attempt it leaves the stored timestamp untouched, on a
passed attempt it upserts `now` — while the simple variant never
reads or writes rate-limit state and never returns 429. -/
theorem C6_variants (st : Store) (k : String) (now : Int)
    (body : ReqBody) :
    (handlePostSimple st body now).2.rate_limits = st.rate_limits ∧
    (handlePostSimple st body now).1.status ≠ 429 ∧
    (handlePost st k now body).2.rate_limits =
      (if (rlHit st.rate_limits k now).isSome then st.rate_limits
       else upsertRL k now st.rate_limits) := by
  refine ⟨?_, ?_, ?_⟩
  · cases body with
    | invalid => rfl
    | valid t =>
      rw [handlePostSimple_valid]
      split <;> rfl
  · cases body with
    | invalid => simp [handlePostSimple]
    | valid t =>
      rw [handlePostSimple_valid]
      split <;> simp
  · rcases hh : rlHit st.rate_limits k now with _ | r
    · rw [(handlePost_pass_frame body hh).2]
      simp [hh]
    · rw [handlePost_throttled body hh]
      simp [hh]

/-- C9: every GET response contains at most 10 messages, ordered by
`created_at` descending (newest first). -/
theorem C9_get_top10 (st : Store) :
    (handleGet st).length ≤ 10 ∧ (handleGet st).Pairwise msgGe := by
  constructor
  · show ((List.insertionSort msgGe st.messages).take 10).length ≤ 10
    rw [List.length_take]
    exact min_le_left _ _
  · exact List.Pairwise.sublist (List.take_sublist 10 _)
      (List.sorted_insertionSort msgGe st.messages)

/-- C10: every throttled POST answers with exactly the body
`{ ok: false, error: "Too many requests", retry_after_ms }` and a
`Retry-After` header that is the ceiling of `retry_after_ms / 1000`
rendered as a numeric string; the two inequalities pin
`ceilDiv1000 r` as that ceiling. -/
theorem C10_throttle_response (st : Store) (k : String) (now : Int)
    (body : ReqBody)
    (h : (handlePost st k now body).1.status = 429) :
    ∃ r, (handlePost st k now body).1 =
        ⟨429, false, some "Too many requests", some r,
          some (toString (ceilDiv1000 r))⟩ ∧
      0 < r ∧ r ≤ 1000 * ceilDiv1000 r ∧
      1000 * ceilDiv1000 r < r + 1000 := by
  rcases hh : rlHit st.rate_limits k now with _ | r
  · exact absurd h (handlePost_pass_frame body hh).1
  · have hr := rlHit_pos hh
    refine ⟨r, ?_, hr, ?_, ?_⟩
    · rw [handlePost_throttled body hh]
    · unfold ceilDiv1000; omega
    · unfold ceilDiv1000; omega

/-- Witness for C10 at a concrete throttled input
(`retry_after_ms = 29995`, header `"30"`). -/
theorem C10_throttle_response_witness :
    ∃ r, (handlePost ⟨[("k", 10)], []⟩ "k" 15 ReqBody.invalid).1 =
        ⟨429, false, some "Too many requests", some r,
          some (toString (ceilDiv1000 r))⟩ ∧
      0 < r ∧ r ≤ 1000 * ceilDiv1000 r ∧
      1000 * ceilDiv1000 r < r + 1000 :=
  C10_throttle_response ⟨[("k", 10)], []⟩ "k" 15 ReqBody.invalid (by decide)

end Duanlian
